import Mathlib

/-!
Verification development for the RepoDocAgent repository.

The data model is embedded from the SQL schema (tables `repositories`,
`documentation`, `monitoring_jobs`) and from the frontend TypeScript
sources (`services/api.ts`, `store/appStore.ts`,
`components/RepoUpload.tsx`, `components/DocumentationViewer.tsx`).
The backend pipeline operations (Document Store append, Job Scheduler,
Analysis Executor) are not part of the source tree; where a definition
is reconstructed from the specification instead of the source, its doc
comment says so explicitly.

Timestamp columns (`created_at`, `updated_at`, `last_analyzed_at`,
`started_at`, `completed_at`) carry no information used by any claim
about ordering or content, so they are represented only where a claim
mentions them.
-/

namespace RepoDocAgent

/-- Embedded from the SQL schema and `services/api.ts`: the `status`
column of `repositories` is constrained by
`CHECK (status IN ('pending', 'cloning', 'analyzing', 'generating_docs',
'completed', 'failed'))`; the frontend `Repository` interface uses the
same six-value union type. -/
inductive RepoStatus
  | pending
  | cloning
  | analyzing
  | generating_docs
  | completed
  | failed
deriving DecidableEq

/-- Embedded from the SQL schema: the `status` column of
`monitoring_jobs` is constrained by
`CHECK (status IN ('pending', 'running', 'completed', 'failed'))`. -/
inductive JobStatus
  | pending
  | running
  | completed
  | failed
deriving DecidableEq

/-- Embedded from the SQL schema: a row of the `repositories` table
(timestamp columns omitted, see the file header). -/
structure RepoRow where
  id : String
  url : String
  name : Option String
  description : Option String
  status : RepoStatus
  last_commit_hash : Option String
  branch : String
  monitoring_enabled : Bool
  webhook_id : Option String
  error_message : Option String
deriving DecidableEq

/-- Embedded from the SQL schema: a row of the `documentation` table
(`content JSONB` is kept opaque as a string; `created_at` omitted). -/
structure DocRow where
  id : String
  repo_id : String
  version : Nat
  commit_hash : String
  content : String
  file_count : Nat
  lines_of_code : Nat
deriving DecidableEq

/-- Embedded from the SQL schema: a row of the `monitoring_jobs` table
(`changes_detected JSONB` kept opaque; timestamps omitted). -/
structure JobRow where
  id : String
  repo_id : String
  status : JobStatus
  trigger_type : String
  changes_detected : Option String
  error_message : Option String
  retry_count : Nat
deriving DecidableEq

/-- The persisted state: the three tables of the schema. -/
structure DB where
  repos : List RepoRow
  docs : List DocRow
  jobs : List JobRow
deriving DecidableEq

def DB.empty : DB := ⟨[], [], []⟩

/-- All `documentation` rows belonging to a repository
(`SELECT * FROM documentation WHERE repo_id = rid`). -/
def docsFor (db : DB) (rid : String) : List DocRow :=
  db.docs.filter (fun d => decide (d.repo_id = rid))

/-- The version numbers stored for a repository, in insertion order. -/
def docVersions (db : DB) (rid : String) : List Nat :=
  (docsFor db rid).map DocRow.version

/-- Modelled from the spec (section 4.1): `max(existing versions for
repoId)`, `0` if none exist, so that `maxVersion + 1` is the next
version number (`1` if none exist). -/
def maxVersion (db : DB) (rid : String) : Nat :=
  (docVersions db rid).foldr max 0

/-- All `monitoring_jobs` rows belonging to a repository that are in
state `running`. -/
def runningFor (db : DB) (rid : String) : List JobRow :=
  db.jobs.filter (fun j => decide (j.repo_id = rid ∧ j.status = JobStatus.running))

/-- The list `[1, 2, ..., n]`: the version history the Document Store
is supposed to produce after `n` appends. -/
def seqTo : Nat → List Nat
  | 0 => []
  | n + 1 => seqTo n ++ [n + 1]

theorem seqTo_foldr_max (n b : Nat) : (seqTo n).foldr max b = max b n := by
  induction n generalizing b with
  | zero => simp [seqTo]
  | succ n ih =>
      simp only [seqTo, List.foldr_append, List.foldr_cons, List.foldr_nil, ih]
      omega

theorem mem_seqTo {x n : Nat} (h : x ∈ seqTo n) : 1 ≤ x ∧ x ≤ n := by
  induction n with
  | zero => simp [seqTo] at h
  | succ n ih =>
      simp only [seqTo, List.mem_append, List.mem_singleton] at h
      rcases h with h | h
      · have := ih h; omega
      · omega

theorem seqTo_pairwise (n : Nat) : List.Pairwise (· < ·) (seqTo n) := by
  induction n with
  | zero => simp [seqTo]
  | succ n ih =>
      simp only [seqTo, List.pairwise_append, List.pairwise_cons, List.mem_singleton]
      refine ⟨ih, by simp, ?_⟩
      intro x hx y hy
      subst hy
      have := mem_seqTo hx
      omega

/-- Helper: apply `f` to every `repositories` row whose `id` is `rid`,
leaving the other tables untouched. -/
def updateRepo (rid : String) (f : RepoRow → RepoRow) (db : DB) : DB :=
  ⟨db.repos.map (fun r => if r.id = rid then f r else r), db.docs, db.jobs⟩

/-- Helper: apply `f` to every `monitoring_jobs` row whose `id` is
`jid`, leaving the other tables untouched. -/
def updateJob (jid : String) (f : JobRow → JobRow) (db : DB) : DB :=
  ⟨db.repos, db.docs, db.jobs.map (fun j => if j.id = jid then f j else j)⟩

/-- Modelled from the spec (section 3, Repository lifecycle; the
create-analysis endpoint `POST /api/repos/analyze` of `api.ts` is its
only caller in the source): a repository is created with
`status = pending` and empty mutable state. -/
def createRepo (db : DB) (rid url branch : String) : DB :=
  ⟨db.repos ++ [⟨rid, url, none, none, RepoStatus.pending, none, branch, true, none, none⟩],
   db.docs, db.jobs⟩

/-- Modelled from the spec (section 4.2): a job starting moves the
repository from `pending`, `completed` or `failed` into `cloning`;
`error_message` is nullable and set only on `failed`, so entering a
non-failed state clears it. -/
def startRun (db : DB) (rid : String) : DB :=
  updateRepo rid
    (fun r => ⟨r.id, r.url, r.name, r.description, RepoStatus.cloning,
               r.last_commit_hash, r.branch, r.monitoring_enabled, r.webhook_id, none⟩) db

/-- Modelled from the spec (section 4.2): clone succeeds,
`cloning -> analyzing`. -/
def cloneOk (db : DB) (rid : String) : DB :=
  updateRepo rid
    (fun r => ⟨r.id, r.url, r.name, r.description, RepoStatus.analyzing,
               r.last_commit_hash, r.branch, r.monitoring_enabled, r.webhook_id, r.error_message⟩) db

/-- Modelled from the spec (section 4.2): extraction succeeds,
`analyzing -> generating_docs`. -/
def extractOk (db : DB) (rid : String) : DB :=
  updateRepo rid
    (fun r => ⟨r.id, r.url, r.name, r.description, RepoStatus.generating_docs,
               r.last_commit_hash, r.branch, r.monitoring_enabled, r.webhook_id, r.error_message⟩) db

/-- Modelled from the spec (section 4.2): any stage failure moves the
repository into `failed` and sets `error_message` to the cause, leaving
`last_commit_hash` and existing documentation untouched. -/
def stageFail (db : DB) (rid msg : String) : DB :=
  updateRepo rid
    (fun r => ⟨r.id, r.url, r.name, r.description, RepoStatus.failed,
               r.last_commit_hash, r.branch, r.monitoring_enabled, r.webhook_id, some msg⟩) db

/-- Modelled from the spec (section 4.2): the transition into
`completed` sets `last_commit_hash` to the commit just processed; the
corresponding `DocumentationVersion` was appended before the flip. -/
def completeRun (db : DB) (rid commit : String) : DB :=
  updateRepo rid
    (fun r => ⟨r.id, r.url, r.name, r.description, RepoStatus.completed,
               some commit, r.branch, r.monitoring_enabled, r.webhook_id, none⟩) db

/-- Modelled from the spec (section 4.1, Document Store `append`): the
new row gets version `max(existing versions for repoId) + 1` (`1` if
none exist) and is persisted atomically with the content. -/
def appendDoc (db : DB) (docId rid commit content : String) (fc loc : Nat) : DB :=
  ⟨db.repos,
   db.docs ++ [⟨docId, rid, maxVersion db rid + 1, commit, content, fc, loc⟩],
   db.jobs⟩

/-- Modelled from the spec (section 4.3, Job Scheduler `enqueue`): a
new job is created in state `pending` with `retry_count = 0`. -/
def enqueueJob (db : DB) (jid rid trig : String) (changes : Option String) : DB :=
  ⟨db.repos, db.docs,
   db.jobs ++ [⟨jid, rid, JobStatus.pending, trig, changes, none, 0⟩]⟩

/-- Modelled from the spec (section 4.3, `dequeueNext`): the selected
pending job is marked `running`. -/
def markRunning (db : DB) (jid : String) : DB :=
  updateJob jid
    (fun j => ⟨j.id, j.repo_id, JobStatus.running, j.trigger_type,
               j.changes_detected, j.error_message, j.retry_count⟩) db

/-- Modelled from the spec (section 4.3): on Analysis Executor success
the job is marked `completed`. -/
def finishJob (db : DB) (jid : String) : DB :=
  updateJob jid
    (fun j => ⟨j.id, j.repo_id, JobStatus.completed, j.trigger_type,
               j.changes_detected, j.error_message, j.retry_count⟩) db

/-- Modelled from the spec (section 4.3): on failure the job records
the error and increments `retry_count`; here shown at the point where
the job is marked `failed`. -/
def failJob (db : DB) (jid msg : String) : DB :=
  updateJob jid
    (fun j => ⟨j.id, j.repo_id, JobStatus.failed, j.trigger_type,
               j.changes_detected, some msg, j.retry_count + 1⟩) db

/-- Embedded from the SQL schema (`ON DELETE CASCADE` on
`documentation.repo_id` and `monitoring_jobs.repo_id`) and
`deleteRepository` in `api.ts`: deleting a repository removes its row
and every dependent `documentation` and `monitoring_jobs` row. -/
def deleteRepo (db : DB) (rid : String) : DB :=
  ⟨db.repos.filter (fun r => decide (r.id ≠ rid)),
   db.docs.filter (fun d => decide (d.repo_id ≠ rid)),
   db.jobs.filter (fun j => decide (j.repo_id ≠ rid))⟩

/-- The operations of the system, as a step relation on the persisted
state.  The repository-status preconditions are the state machine of
spec section 4.2; the job preconditions are the Job Scheduler contract
of spec section 4.3 (`enqueue` is a no-op when a `pending` or `running`
job exists, so the step carries the complementary precondition;
`dequeue` requires that the job's repository has no `running` job).
Appends and the other operations are atomic steps, which is exactly the
per-repository serialization the spec requires of the Document Store;
a concurrent execution is an arbitrary interleaving of these steps. -/
inductive Step : DB → DB → Prop
  | create (db : DB) (rid url branch : String)
      (hfresh : ∀ r ∈ db.repos, r.id ≠ rid) :
      Step db (createRepo db rid url branch)
  | start (db : DB) (rid : String)
      (hst : ∀ r ∈ db.repos, r.id = rid →
        r.status = RepoStatus.pending ∨ r.status = RepoStatus.completed ∨
        r.status = RepoStatus.failed) :
      Step db (startRun db rid)
  | clone_done (db : DB) (rid : String)
      (hst : ∀ r ∈ db.repos, r.id = rid → r.status = RepoStatus.cloning) :
      Step db (cloneOk db rid)
  | extract_done (db : DB) (rid : String)
      (hst : ∀ r ∈ db.repos, r.id = rid → r.status = RepoStatus.analyzing) :
      Step db (extractOk db rid)
  | fail_stage (db : DB) (rid msg : String)
      (hst : ∀ r ∈ db.repos, r.id = rid →
        r.status = RepoStatus.cloning ∨ r.status = RepoStatus.analyzing ∨
        r.status = RepoStatus.generating_docs) :
      Step db (stageFail db rid msg)
  | persist (db : DB) (docId rid commit content : String) (fc loc : Nat)
      (hrepo : ∃ r ∈ db.repos, r.id = rid) :
      Step db (appendDoc db docId rid commit content fc loc)
  | complete (db : DB) (rid commit : String)
      (hst : ∀ r ∈ db.repos, r.id = rid → r.status = RepoStatus.generating_docs)
      (hdoc : ∃ d ∈ db.docs, d.repo_id = rid ∧ d.commit_hash = commit) :
      Step db (completeRun db rid commit)
  | enqueue (db : DB) (jid rid trig : String) (changes : Option String)
      (hfresh : ∀ j ∈ db.jobs, j.id ≠ jid)
      (hnone : ∀ j ∈ db.jobs, j.repo_id = rid →
        j.status ≠ JobStatus.pending ∧ j.status ≠ JobStatus.running)
      (hrepo : ∃ r ∈ db.repos, r.id = rid) :
      Step db (enqueueJob db jid rid trig changes)
  | dequeue (db : DB) (jid rid : String)
      (hjob : ∃ j ∈ db.jobs, j.id = jid)
      (hpend : ∀ j ∈ db.jobs, j.id = jid →
        j.status = JobStatus.pending ∧ j.repo_id = rid)
      (hnorun : ∀ j ∈ db.jobs, j.repo_id = rid → j.status ≠ JobStatus.running) :
      Step db (markRunning db jid)
  | job_done (db : DB) (jid : String)
      (hrun : ∀ j ∈ db.jobs, j.id = jid → j.status = JobStatus.running) :
      Step db (finishJob db jid)
  | job_fail (db : DB) (jid msg : String)
      (hrun : ∀ j ∈ db.jobs, j.id = jid → j.status = JobStatus.running) :
      Step db (failJob db jid msg)
  | remove (db : DB) (rid : String) :
      Step db (deleteRepo db rid)

/-- The states reachable from the empty database. -/
inductive Reach : DB → Prop
  | init : Reach DB.empty
  | step {db db' : DB} (h : Reach db) (s : Step db db') : Reach db'

/-- All `monitoring_jobs` rows belonging to a repository. -/
def jobsFor (db : DB) (rid : String) : List JobRow :=
  db.jobs.filter (fun j => decide (j.repo_id = rid))

/-- Invariant of the Document Store: per repository the stored version
numbers, in insertion order, are exactly `[1, ..., n]`. -/
def DocsOk (db : DB) : Prop :=
  ∀ rid, docVersions db rid = seqTo (docsFor db rid).length

/-- Invariant of the Job Scheduler: job ids are unique and two
`running` jobs of the same repository coincide. -/
def JobsOk (db : DB) : Prop :=
  (db.jobs.map JobRow.id).Nodup ∧
  ∀ j ∈ db.jobs, ∀ k ∈ db.jobs, j.status = JobStatus.running →
    k.status = JobStatus.running → j.repo_id = k.repo_id → j = k

/-- Invariant of the Repository Registry: `error_message` is set only
on `failed`, and a `completed` repository has a documentation version
whose `commit_hash` equals its `last_commit_hash`. -/
def ReposOk (db : DB) : Prop :=
  ∀ r ∈ db.repos,
    (r.error_message ≠ none → r.status = RepoStatus.failed) ∧
    (r.status = RepoStatus.completed →
      ∃ d ∈ db.docs, d.repo_id = r.id ∧ r.last_commit_hash = some d.commit_hash)

theorem maxVersion_eq_length {db : DB} (h : DocsOk db) (rid : String) :
    maxVersion db rid = (docsFor db rid).length := by
  unfold maxVersion
  rw [h rid, seqTo_foldr_max]
  exact Nat.zero_max _

theorem docsFor_appendDoc (db : DB) (docId rid commit content : String) (fc loc : Nat)
    (rid' : String) :
    docsFor (appendDoc db docId rid commit content fc loc) rid'
      = docsFor db rid'
        ++ if rid = rid'
           then [⟨docId, rid, maxVersion db rid + 1, commit, content, fc, loc⟩]
           else [] := by
  unfold docsFor appendDoc
  rw [List.filter_append]
  congr 1
  by_cases h : rid = rid' <;> simp [h]

theorem docsFor_deleteRepo (db : DB) (rid0 rid' : String) :
    docsFor (deleteRepo db rid0) rid'
      = if rid' = rid0 then [] else docsFor db rid' := by
  unfold docsFor deleteRepo
  dsimp only
  rw [List.filter_filter]
  by_cases h : rid' = rid0
  · subst h
    rw [if_pos rfl]
    rw [List.filter_eq_nil_iff]
    intro d _
    simp
  · rw [if_neg h]
    apply List.filter_congr
    intro d _
    by_cases hd : d.repo_id = rid'
    · simp [hd, h]
    · simp [hd]

theorem jobsFor_deleteRepo (db : DB) (rid0 rid' : String) :
    jobsFor (deleteRepo db rid0) rid'
      = if rid' = rid0 then [] else jobsFor db rid' := by
  unfold jobsFor deleteRepo
  dsimp only
  rw [List.filter_filter]
  by_cases h : rid' = rid0
  · subst h
    rw [if_pos rfl]
    rw [List.filter_eq_nil_iff]
    intro j _
    simp
  · rw [if_neg h]
    apply List.filter_congr
    intro j _
    by_cases hj : j.repo_id = rid'
    · simp [hj, h]
    · simp [hj]

theorem docsOk_step {db db' : DB} (s : Step db db') (h : DocsOk db) : DocsOk db' := by
  cases s with
  | create rid url branch hfresh => exact h
  | start rid hst => exact h
  | clone_done rid hst => exact h
  | extract_done rid hst => exact h
  | fail_stage rid msg hst => exact h
  | complete rid commit hst hdoc => exact h
  | enqueue jid rid trig changes hfresh hnone hrepo => exact h
  | dequeue jid rid hjob hpend hnorun => exact h
  | job_done jid hrun => exact h
  | job_fail jid msg hrun => exact h
  | persist docId rid commit content fc loc hrepo =>
      intro rid'
      unfold docVersions
      rw [docsFor_appendDoc]
      by_cases hr : rid = rid'
      · subst hr
        rw [if_pos rfl]
        rw [List.map_append, List.length_append]
        have hv := h rid
        unfold docVersions at hv
        rw [hv, maxVersion_eq_length h rid]
        simp [seqTo]
      · rw [if_neg hr]
        simp only [List.append_nil]
        exact h rid'
  | remove rid0 =>
      intro rid'
      unfold docVersions
      rw [docsFor_deleteRepo]
      by_cases hr : rid' = rid0
      · rw [if_pos hr]
        simp [seqTo]
      · rw [if_neg hr]
        exact h rid'

theorem updateJob_jobs_map_id (db : DB) (jid : String) (f : JobRow → JobRow)
    (hf : ∀ j, (f j).id = j.id) :
    (updateJob jid f db).jobs.map JobRow.id = db.jobs.map JobRow.id := by
  unfold updateJob
  dsimp only
  rw [List.map_map]
  apply List.map_congr_left
  intro j _
  by_cases hj : j.id = jid <;> simp [Function.comp, hj, hf]

theorem jobsOk_step {db db' : DB} (s : Step db db') (h : JobsOk db) : JobsOk db' := by
  obtain ⟨hnd, hmx⟩ := h
  cases s with
  | create rid url branch hfresh => exact ⟨hnd, hmx⟩
  | start rid hst => exact ⟨hnd, hmx⟩
  | clone_done rid hst => exact ⟨hnd, hmx⟩
  | extract_done rid hst => exact ⟨hnd, hmx⟩
  | fail_stage rid msg hst => exact ⟨hnd, hmx⟩
  | complete rid commit hst hdoc => exact ⟨hnd, hmx⟩
  | persist docId rid commit content fc loc hrepo => exact ⟨hnd, hmx⟩
  | enqueue jid rid trig changes hfresh hnone hrepo =>
      constructor
      · unfold enqueueJob
        dsimp only
        rw [List.map_append, List.nodup_append]
        refine ⟨hnd, by simp, ?_⟩
        intro a ha hb
        simp only [List.map_cons, List.map_nil, List.mem_singleton] at hb
        subst hb
        obtain ⟨j, hj, hji⟩ := List.mem_map.mp ha
        exact hfresh j hj hji
      · intro a ha b hb hra hrb hrepoeq
        unfold enqueueJob at ha hb
        dsimp only at ha hb
        rw [List.mem_append] at ha hb
        rcases ha with ha | ha
        · rcases hb with hb | hb
          · exact hmx a ha b hb hra hrb hrepoeq
          · exfalso
            simp only [List.mem_singleton] at hb
            subst hb
            simp at hrb
        · exfalso
          simp only [List.mem_singleton] at ha
          subst ha
          simp at hra
  | dequeue jid rid hjob hpend hnorun =>
      constructor
      · unfold markRunning
        rw [updateJob_jobs_map_id]
        · exact hnd
        · intro j
          rfl
      · intro a ha b hb hra hrb hrepoeq
        unfold markRunning updateJob at ha hb
        dsimp only at ha hb
        obtain ⟨x, hx, hxa⟩ := List.mem_map.mp ha
        obtain ⟨y, hy, hyb⟩ := List.mem_map.mp hb
        by_cases hxj : x.id = jid <;> by_cases hyj : y.id = jid
        · have hxy : x = y := List.inj_on_of_nodup_map hnd hx hy (by rw [hxj, hyj])
          subst hxy
          rw [← hxa, ← hyb]
        · exfalso
          rw [if_neg hyj] at hyb
          rw [if_pos hxj] at hxa
          subst hyb
          have hxr : x.repo_id = rid := (hpend x hx hxj).2
          have hax : a.repo_id = x.repo_id := by rw [← hxa]
          have hyr : y.repo_id = rid := by rw [← hrepoeq, hax, hxr]
          exact hnorun y hy hyr hrb
        · exfalso
          rw [if_neg hxj] at hxa
          rw [if_pos hyj] at hyb
          subst hxa
          have hyr : y.repo_id = rid := (hpend y hy hyj).2
          have hby : b.repo_id = y.repo_id := by rw [← hyb]
          have hxr : x.repo_id = rid := by rw [hrepoeq, hby, hyr]
          exact hnorun x hx hxr hra
        · rw [if_neg hxj] at hxa
          rw [if_neg hyj] at hyb
          subst hxa
          subst hyb
          exact hmx x hx y hy hra hrb hrepoeq
  | job_done jid hrun =>
      constructor
      · unfold finishJob
        rw [updateJob_jobs_map_id]
        · exact hnd
        · intro j
          rfl
      · intro a ha b hb hra hrb hrepoeq
        unfold finishJob updateJob at ha hb
        dsimp only at ha hb
        obtain ⟨x, hx, hxa⟩ := List.mem_map.mp ha
        obtain ⟨y, hy, hyb⟩ := List.mem_map.mp hb
        by_cases hxj : x.id = jid
        · exfalso
          rw [if_pos hxj] at hxa
          rw [← hxa] at hra
          simp at hra
        · by_cases hyj : y.id = jid
          · exfalso
            rw [if_pos hyj] at hyb
            rw [← hyb] at hrb
            simp at hrb
          · rw [if_neg hxj] at hxa
            rw [if_neg hyj] at hyb
            subst hxa
            subst hyb
            exact hmx x hx y hy hra hrb hrepoeq
  | job_fail jid msg hrun =>
      constructor
      · unfold failJob
        rw [updateJob_jobs_map_id]
        · exact hnd
        · intro j
          rfl
      · intro a ha b hb hra hrb hrepoeq
        unfold failJob updateJob at ha hb
        dsimp only at ha hb
        obtain ⟨x, hx, hxa⟩ := List.mem_map.mp ha
        obtain ⟨y, hy, hyb⟩ := List.mem_map.mp hb
        by_cases hxj : x.id = jid
        · exfalso
          rw [if_pos hxj] at hxa
          rw [← hxa] at hra
          simp at hra
        · by_cases hyj : y.id = jid
          · exfalso
            rw [if_pos hyj] at hyb
            rw [← hyb] at hrb
            simp at hrb
          · rw [if_neg hxj] at hxa
            rw [if_neg hyj] at hyb
            subst hxa
            subst hyb
            exact hmx x hx y hy hra hrb hrepoeq
  | remove rid0 =>
      constructor
      · exact List.Nodup.sublist ((List.filter_sublist _).map JobRow.id) hnd
      · intro a ha b hb hra hrb hrepoeq
        unfold deleteRepo at ha hb
        dsimp only at ha hb
        exact hmx a (List.mem_filter.mp ha).1 b (List.mem_filter.mp hb).1 hra hrb hrepoeq

theorem reposOk_step {db db' : DB} (s : Step db db') (h : ReposOk db) : ReposOk db' := by
  cases s with
  | create rid url branch hfresh =>
      intro r hr
      unfold createRepo at hr
      dsimp only at hr
      rw [List.mem_append] at hr
      rcases hr with hr | hr
      · exact h r hr
      · simp only [List.mem_singleton] at hr
        subst hr
        exact ⟨fun hc => absurd rfl hc, fun hc => by simp at hc⟩
  | start rid hst =>
      intro r hr
      unfold startRun updateRepo at hr
      dsimp only at hr
      obtain ⟨x, hx, hxr⟩ := List.mem_map.mp hr
      by_cases hxi : x.id = rid
      · rw [if_pos hxi] at hxr
        subst hxr
        exact ⟨fun hc => absurd rfl hc, fun hc => by simp at hc⟩
      · rw [if_neg hxi] at hxr
        subst hxr
        exact h x hx
  | clone_done rid hst =>
      intro r hr
      unfold cloneOk updateRepo at hr
      dsimp only at hr
      obtain ⟨x, hx, hxr⟩ := List.mem_map.mp hr
      by_cases hxi : x.id = rid
      · rw [if_pos hxi] at hxr
        subst hxr
        constructor
        · intro hne
          exfalso
          dsimp at hne
          have := (h x hx).1 hne
          rw [hst x hx hxi] at this
          exact RepoStatus.noConfusion this
        · intro hc
          simp at hc
      · rw [if_neg hxi] at hxr
        subst hxr
        exact h x hx
  | extract_done rid hst =>
      intro r hr
      unfold extractOk updateRepo at hr
      dsimp only at hr
      obtain ⟨x, hx, hxr⟩ := List.mem_map.mp hr
      by_cases hxi : x.id = rid
      · rw [if_pos hxi] at hxr
        subst hxr
        constructor
        · intro hne
          exfalso
          dsimp at hne
          have := (h x hx).1 hne
          rw [hst x hx hxi] at this
          exact RepoStatus.noConfusion this
        · intro hc
          simp at hc
      · rw [if_neg hxi] at hxr
        subst hxr
        exact h x hx
  | fail_stage rid msg hst =>
      intro r hr
      unfold stageFail updateRepo at hr
      dsimp only at hr
      obtain ⟨x, hx, hxr⟩ := List.mem_map.mp hr
      by_cases hxi : x.id = rid
      · rw [if_pos hxi] at hxr
        subst hxr
        exact ⟨fun _ => rfl, fun hc => by simp at hc⟩
      · rw [if_neg hxi] at hxr
        subst hxr
        exact h x hx
  | complete rid commit hst hdoc =>
      intro r hr
      unfold completeRun updateRepo at hr
      dsimp only at hr
      obtain ⟨x, hx, hxr⟩ := List.mem_map.mp hr
      by_cases hxi : x.id = rid
      · rw [if_pos hxi] at hxr
        subst hxr
        constructor
        · intro hne
          exact absurd rfl hne
        · intro _
          obtain ⟨d, hd, hdr, hdc⟩ := hdoc
          exact ⟨d, hd, by rw [hdr]; exact hxi.symm, by rw [hdc]⟩
      · rw [if_neg hxi] at hxr
        subst hxr
        exact h x hx
  | persist docId rid commit content fc loc hrepo =>
      intro r hr
      unfold appendDoc at hr ⊢
      dsimp only at hr ⊢
      refine ⟨(h r hr).1, fun hc => ?_⟩
      obtain ⟨d, hd, hdr, hdc⟩ := (h r hr).2 hc
      exact ⟨d, List.mem_append_left _ hd, hdr, hdc⟩
  | enqueue jid rid trig changes hfresh hnone hrepo => exact h
  | dequeue jid rid hjob hpend hnorun => exact h
  | job_done jid hrun => exact h
  | job_fail jid msg hrun => exact h
  | remove rid0 =>
      intro r hr
      unfold deleteRepo at hr ⊢
      dsimp only at hr ⊢
      have hm := List.mem_filter.mp hr
      have hne : r.id ≠ rid0 := by
        have := hm.2
        simpa using this
      refine ⟨(h r hm.1).1, fun hc => ?_⟩
      obtain ⟨d, hd, hdr, hdc⟩ := (h r hm.1).2 hc
      refine ⟨d, List.mem_filter.mpr ⟨hd, ?_⟩, hdr, hdc⟩
      simp [hdr, hne]

/-- Every reachable state satisfies the three component invariants. -/
theorem reach_inv {db : DB} (h : Reach db) : JobsOk db ∧ DocsOk db ∧ ReposOk db := by
  induction h with
  | init =>
      refine ⟨⟨by simp [DB.empty], ?_⟩, ?_, ?_⟩
      · intro j hj
        simp [DB.empty] at hj
      · intro rid
        simp [docVersions, docsFor, DB.empty, seqTo]
      · intro r hr
        simp [DB.empty] at hr
  | step h s ih => exact ⟨jobsOk_step s ih.1, docsOk_step s ih.2.1, reposOk_step s ih.2.2⟩

def exDB1 : DB := createRepo DB.empty "r1" "https://example.com/repo" "main"

def exDB2 : DB := enqueueJob exDB1 "j1" "r1" "manual" none

def exDB3 : DB := markRunning exDB2 "j1"

def exDB4 : DB := startRun exDB3 "r1"

def exDB5 : DB := cloneOk exDB4 "r1"

def exDB6 : DB := extractOk exDB5 "r1"

def exDB7 : DB := appendDoc exDB6 "d1" "r1" "abc123" "content" 3 100

def exDB8 : DB := completeRun exDB7 "r1" "abc123"

def exDB9 : DB := finishJob exDB8 "j1"

def exDB10 : DB := startRun exDB9 "r1"

def exDB11 : DB := stageFail exDB10 "r1" "boom"

theorem reach_exDB1 : Reach exDB1 :=
  Reach.step Reach.init (Step.create DB.empty "r1" "https://example.com/repo" "main" (by decide))

theorem reach_exDB2 : Reach exDB2 :=
  Reach.step reach_exDB1 (Step.enqueue exDB1 "j1" "r1" "manual" none (by decide) (by decide) (by decide))

theorem reach_exDB3 : Reach exDB3 :=
  Reach.step reach_exDB2 (Step.dequeue exDB2 "j1" "r1" (by decide) (by decide) (by decide))

theorem reach_exDB4 : Reach exDB4 :=
  Reach.step reach_exDB3 (Step.start exDB3 "r1" (by decide))

theorem reach_exDB5 : Reach exDB5 :=
  Reach.step reach_exDB4 (Step.clone_done exDB4 "r1" (by decide))

theorem reach_exDB6 : Reach exDB6 :=
  Reach.step reach_exDB5 (Step.extract_done exDB5 "r1" (by decide))

theorem reach_exDB7 : Reach exDB7 :=
  Reach.step reach_exDB6 (Step.persist exDB6 "d1" "r1" "abc123" "content" 3 100 (by decide))

theorem reach_exDB8 : Reach exDB8 :=
  Reach.step reach_exDB7 (Step.complete exDB7 "r1" "abc123" (by decide) (by decide))

theorem reach_exDB9 : Reach exDB9 :=
  Reach.step reach_exDB8 (Step.job_done exDB8 "j1" (by decide))

theorem reach_exDB10 : Reach exDB10 :=
  Reach.step reach_exDB9 (Step.start exDB9 "r1" (by decide))

theorem reach_exDB11 : Reach exDB11 :=
  Reach.step reach_exDB10 (Step.fail_stage exDB10 "r1" "boom" (by decide))

theorem length_le_one_of_forall_eq {α : Type _} (l : List α) (hnd : l.Nodup)
    (hall : ∀ x ∈ l, ∀ y ∈ l, x = y) : l.length ≤ 1 := by
  match l with
  | [] => simp
  | [a] => simp
  | a :: b :: t =>
      exfalso
      have hab : a = b := hall a (by simp) b (by simp)
      subst hab
      simp [List.nodup_cons] at hnd

/-- C1: the Document Store append assigns the new row the version
number `max(existing versions for that repository) + 1` (`1` if none
exist), and in every reachable state the version numbers of a
repository are strictly increasing with no duplicates.  Appends are
atomic steps of the transition system, which is the per-repository
serialization the spec requires; a concurrent execution is an
arbitrary interleaving of such steps. -/
theorem c1_append_version_monotone :
    (∀ (db : DB) (docId rid commit content : String) (fc loc : Nat),
        docVersions (appendDoc db docId rid commit content fc loc) rid
          = docVersions db rid ++ [maxVersion db rid + 1]
        ∧ (docsFor db rid = [] →
            docVersions (appendDoc db docId rid commit content fc loc) rid = [1]))
    ∧ ∀ db : DB, Reach db → ∀ rid : String,
        List.Pairwise (· < ·) (docVersions db rid) := by
  constructor
  · intro db docId rid commit content fc loc
    constructor
    · unfold docVersions
      rw [docsFor_appendDoc, if_pos rfl, List.map_append]
      rfl
    · intro hnil
      have hm : maxVersion db rid = 0 := by
        unfold maxVersion docVersions
        rw [hnil]
        rfl
      unfold docVersions
      rw [docsFor_appendDoc, if_pos rfl, hnil, hm]
      rfl
  · intro db hdb rid
    rw [(reach_inv hdb).2.1 rid]
    exact seqTo_pairwise _

theorem c1_append_version_monotone_witness :
    docVersions (appendDoc exDB6 "d1" "r1" "abc123" "content" 3 100) "r1" = [1]
    ∧ List.Pairwise (· < ·) (docVersions exDB8 "r1") :=
  ⟨(c1_append_version_monotone.1 exDB6 "d1" "r1" "abc123" "content" 3 100).2 (by decide),
   c1_append_version_monotone.2 exDB8 reach_exDB8 "r1"⟩

/-- C2: in every reachable state, at most one monitoring job of a
given repository is in state `running` (the list of running jobs for
any repository has length at most one). -/
theorem c2_at_most_one_running (db : DB) (h : Reach db) (rid : String) :
    (runningFor db rid).length ≤ 1 := by
  obtain ⟨⟨hnd, hmx⟩, -, -⟩ := reach_inv h
  apply length_le_one_of_forall_eq
  · exact List.Nodup.filter _ (List.Nodup.of_map _ hnd)
  · intro x hx y hy
    unfold runningFor at hx hy
    have hx' := List.mem_filter.mp hx
    have hy' := List.mem_filter.mp hy
    have hxp : x.repo_id = rid ∧ x.status = JobStatus.running := by
      have := hx'.2
      simpa using this
    have hyp : y.repo_id = rid ∧ y.status = JobStatus.running := by
      have := hy'.2
      simpa using this
    exact hmx x hx'.1 y hy'.1 hxp.2 hyp.2 (by rw [hxp.1, hyp.1])

theorem c2_at_most_one_running_witness : (runningFor exDB3 "r1").length ≤ 1 :=
  c2_at_most_one_running exDB3 reach_exDB3 "r1"

/-- C3: in every reachable state, a repository whose status is
`completed` has a documentation version whose `commit_hash` equals the
repository's `last_commit_hash` (the append happens before the status
flips, so this holds in every observable state). -/
theorem c3_completed_has_matching_version (db : DB) (h : Reach db) (r : RepoRow)
    (hr : r ∈ db.repos) (hc : r.status = RepoStatus.completed) :
    ∃ d ∈ db.docs, d.repo_id = r.id ∧ r.last_commit_hash = some d.commit_hash :=
  ((reach_inv h).2.2 r hr).2 hc

def exRepoRowCompleted : RepoRow :=
  ⟨"r1", "https://example.com/repo", none, none, RepoStatus.completed,
   some "abc123", "main", true, none, none⟩

theorem c3_completed_has_matching_version_witness :
    ∃ d ∈ exDB8.docs, d.repo_id = exRepoRowCompleted.id ∧
      exRepoRowCompleted.last_commit_hash = some d.commit_hash :=
  c3_completed_has_matching_version exDB8 reach_exDB8 exRepoRowCompleted (by decide) (by decide)

/-- C4: deleting a repository removes every documentation version and
every monitoring job that references it (the schema's
`ON DELETE CASCADE`), and no operation of the system mutates or
removes an individual documentation row: across any step, a stored
documentation row either survives unchanged or its whole repository is
gone from the state (the cascade). -/
theorem c4_delete_cascades :
    (∀ (db : DB) (rid : String),
        docsFor (deleteRepo db rid) rid = []
        ∧ jobsFor (deleteRepo db rid) rid = []
        ∧ ∀ r ∈ (deleteRepo db rid).repos, r.id ≠ rid)
    ∧ ∀ db db' : DB, Step db db' → ∀ d ∈ db.docs,
        d ∈ db'.docs ∨ ∀ r ∈ db'.repos, r.id ≠ d.repo_id := by
  constructor
  · intro db rid
    refine ⟨?_, ?_, ?_⟩
    · rw [docsFor_deleteRepo, if_pos rfl]
    · rw [jobsFor_deleteRepo, if_pos rfl]
    · intro r hr
      unfold deleteRepo at hr
      dsimp only at hr
      have := (List.mem_filter.mp hr).2
      simpa using this
  · intro db db' s d hd
    cases s with
    | create rid url branch hfresh => exact Or.inl hd
    | start rid hst => exact Or.inl hd
    | clone_done rid hst => exact Or.inl hd
    | extract_done rid hst => exact Or.inl hd
    | fail_stage rid msg hst => exact Or.inl hd
    | complete rid commit hst hdoc => exact Or.inl hd
    | enqueue jid rid trig changes hfresh hnone hrepo => exact Or.inl hd
    | dequeue jid rid hjob hpend hnorun => exact Or.inl hd
    | job_done jid hrun => exact Or.inl hd
    | job_fail jid msg hrun => exact Or.inl hd
    | persist docId rid commit content fc loc hrepo =>
        left
        unfold appendDoc
        dsimp only
        exact List.mem_append_left _ hd
    | remove rid0 =>
        by_cases hdr : d.repo_id = rid0
        · right
          intro r hr
          unfold deleteRepo at hr
          dsimp only at hr
          have := (List.mem_filter.mp hr).2
          rw [hdr]
          simpa using this
        · left
          unfold deleteRepo
          dsimp only
          exact List.mem_filter.mpr ⟨hd, by simpa using hdr⟩

def exDocRow : DocRow := ⟨"d1", "r1", 1, "abc123", "content", 3, 100⟩

theorem c4_delete_cascades_witness :
    (docsFor (deleteRepo exDB8 "r1") "r1" = []
     ∧ jobsFor (deleteRepo exDB8 "r1") "r1" = []
     ∧ ∀ r ∈ (deleteRepo exDB8 "r1").repos, r.id ≠ "r1")
    ∧ (exDocRow ∈ (deleteRepo exDB8 "r1").docs ∨
        ∀ r ∈ (deleteRepo exDB8 "r1").repos, r.id ≠ exDocRow.repo_id) :=
  ⟨c4_delete_cascades.1 exDB8 "r1",
   c4_delete_cascades.2 exDB8 (deleteRepo exDB8 "r1") (Step.remove exDB8 "r1") exDocRow (by decide)⟩

/-- C5: in every reachable state a repository's status is one of
exactly the six schema values, and `error_message` is set only when
the status is `failed`. -/
theorem c5_status_enum_error_discipline (db : DB) (h : Reach db) (r : RepoRow)
    (hr : r ∈ db.repos) :
    (r.status = RepoStatus.pending ∨ r.status = RepoStatus.cloning ∨
     r.status = RepoStatus.analyzing ∨ r.status = RepoStatus.generating_docs ∨
     r.status = RepoStatus.completed ∨ r.status = RepoStatus.failed)
    ∧ (r.error_message ≠ none → r.status = RepoStatus.failed) := by
  refine ⟨?_, ((reach_inv h).2.2 r hr).1⟩
  cases r.status <;> simp

def exRepoRowFailed : RepoRow :=
  ⟨"r1", "https://example.com/repo", none, none, RepoStatus.failed,
   some "abc123", "main", true, none, some "boom"⟩

theorem c5_status_enum_error_discipline_witness :
    (exRepoRowFailed.status = RepoStatus.pending ∨ exRepoRowFailed.status = RepoStatus.cloning ∨
     exRepoRowFailed.status = RepoStatus.analyzing ∨
     exRepoRowFailed.status = RepoStatus.generating_docs ∨
     exRepoRowFailed.status = RepoStatus.completed ∨ exRepoRowFailed.status = RepoStatus.failed)
    ∧ (exRepoRowFailed.error_message ≠ none → exRepoRowFailed.status = RepoStatus.failed) :=
  c5_status_enum_error_discipline exDB11 reach_exDB11 exRepoRowFailed (by decide)

/-- HTTP methods used by the frontend API client. -/
inductive Method
  | GET
  | POST
  | DELETE
deriving DecidableEq

/-- One exported function of the frontend API client: its name, HTTP
method and endpoint. -/
structure ApiOp where
  name : String
  method : Method
  path : String
deriving DecidableEq

/-- Embedded from `services/api.ts`: every exported API function with
its HTTP method and endpoint (path parameters written `:repoId`). -/
def apiSurface : List ApiOp :=
  [⟨"analyzeRepository", Method.POST, "/api/repos/analyze"⟩,
   ⟨"getRepositories", Method.GET, "/api/repos"⟩,
   ⟨"getRepository", Method.GET, "/api/repos/:repoId"⟩,
   ⟨"deleteRepository", Method.DELETE, "/api/repos/:repoId"⟩,
   ⟨"getDocumentation", Method.GET, "/api/docs/:repoId"⟩,
   ⟨"getDocumentationVersions", Method.GET, "/api/docs/:repoId/versions"⟩,
   ⟨"exportMarkdown", Method.GET, "/api/docs/:repoId/export/markdown"⟩,
   ⟨"exportJSON", Method.GET, "/api/docs/:repoId/export/json"⟩,
   ⟨"getMonitoringJobs", Method.GET, "/api/monitoring/jobs"⟩]

/-- An API operation mutates persisted state exactly when its HTTP
method is not GET (the client uses GET for every pure read). -/
def isMutatingOp (op : ApiOp) : Bool := decide (op.method ≠ Method.GET)

/-- Embedded from `components/DocumentationViewer.tsx`: the names the
documentation viewer imports from `../services/api`. -/
def documentationViewerApiImports : List String :=
  ["getDocumentation", "getRepository", "exportMarkdown", "exportJSON", "exportDOCX"]

/-- C6: the export interface is supposed to offer Markdown, JSON and
Word byte streams.  The API client defines Markdown and JSON export
operations only; `exportDOCX`, which the documentation viewer imports
and calls from its Word button, is not among the functions defined by
`services/api.ts`, so the Word export cannot succeed. -/
theorem c6_docx_export_missing :
    "exportMarkdown" ∈ apiSurface.map ApiOp.name
    ∧ "exportJSON" ∈ apiSurface.map ApiOp.name
    ∧ "exportDOCX" ∈ documentationViewerApiImports
    ∧ "exportDOCX" ∉ apiSurface.map ApiOp.name := by decide

/-- C7, counterexample to the claim as stated: the claim counts job
listing among the mutating operations of the API surface, but job
listing (`getMonitoringJobs`) is a plain GET read, so it is not a
mutating operation. -/
theorem c7_job_listing_not_mutating :
    "getMonitoringJobs" ∉ (apiSurface.filter isMutatingOp).map ApiOp.name := by decide

/-- C7, amended: the mutating operations of the API surface are
exactly repository create / manual trigger (`analyzeRepository`) and
repository delete (`deleteRepository`); job listing is available as a
GET read; every other operation uses GET and only reads state. -/
theorem c7_read_only_surface :
    (apiSurface.filter isMutatingOp).map ApiOp.name
      = ["analyzeRepository", "deleteRepository"]
    ∧ (apiSurface.filter (fun op => !isMutatingOp op)).all
        (fun op => decide (op.method = Method.GET)) = true
    ∧ apiSurface.any
        (fun op => decide (op.name = "getMonitoringJobs" ∧ op.method = Method.GET)) = true := by
  decide

/-- Embedded from `services/api.ts`: the `tech_stack` object inside
`Documentation.content`. -/
structure TechStack where
  languages : List String
  frameworks : List String
  databases : List String
deriving DecidableEq

/-- Embedded from `services/api.ts`: the structured `content` of a
`Documentation`. -/
structure DocContent where
  executive_summary : String
  product_overview : String
  key_features : List String
  tech_stack : TechStack
  architecture : String
  use_cases : List String
  integrations : List String
  marketing_points : List String
deriving DecidableEq

/-- Embedded from `services/api.ts`: the `Repository` interface of the
frontend (timestamps kept as the strings the API sends). -/
structure Repository where
  id : String
  url : String
  name : Option String
  description : Option String
  status : RepoStatus
  last_commit_hash : Option String
  branch : String
  monitoring_enabled : Bool
  error_message : Option String
  last_analyzed_at : Option String
  created_at : String
  updated_at : Option String
deriving DecidableEq

/-- Embedded from `services/api.ts`: the `Documentation` interface of
the frontend. -/
structure Documentation where
  id : String
  repo_id : String
  version : Nat
  commit_hash : String
  content : DocContent
  file_count : Nat
  lines_of_code : Nat
  created_at : String
deriving DecidableEq

/-- Embedded from `store/appStore.ts`: the state of the zustand app
store (`AppState` minus the action closures). -/
structure AppState where
  repositories : List Repository
  currentRepo : Option Repository
  currentDoc : Option Documentation
  isLoading : Bool
  error : Option String
deriving DecidableEq

/-- Embedded from `store/appStore.ts`: the initial store state. -/
def initialAppState : AppState := ⟨[], none, none, false, none⟩

/-- Embedded from `store/appStore.ts`:
`setRepositories: (repos) => set({ repositories: repos })`; zustand's
`set` merges the given partial object into the state. -/
def setRepositories (repos : List Repository) (s : AppState) : AppState :=
  ⟨repos, s.currentRepo, s.currentDoc, s.isLoading, s.error⟩

/-- Embedded from `store/appStore.ts`:
`setCurrentRepo: (repo) => set({ currentRepo: repo })`. -/
def setCurrentRepo (repo : Option Repository) (s : AppState) : AppState :=
  ⟨s.repositories, repo, s.currentDoc, s.isLoading, s.error⟩

/-- Embedded from `store/appStore.ts`:
`setCurrentDoc: (doc) => set({ currentDoc: doc })`. -/
def setCurrentDoc (doc : Option Documentation) (s : AppState) : AppState :=
  ⟨s.repositories, s.currentRepo, doc, s.isLoading, s.error⟩

/-- Embedded from `store/appStore.ts`:
`setLoading: (loading) => set({ isLoading: loading })`. -/
def setLoading (loading : Bool) (s : AppState) : AppState :=
  ⟨s.repositories, s.currentRepo, s.currentDoc, loading, s.error⟩

/-- Embedded from `store/appStore.ts`:
`setError: (error) => set({ error })`. -/
def setError (e : Option String) (s : AppState) : AppState :=
  ⟨s.repositories, s.currentRepo, s.currentDoc, s.isLoading, e⟩

/-- Embedded from `store/appStore.ts`:
`clearError: () => set({ error: null })`. -/
def clearError (s : AppState) : AppState :=
  ⟨s.repositories, s.currentRepo, s.currentDoc, s.isLoading, none⟩

/-- C8: `clearError` nulls `error` and leaves `repositories`,
`currentRepo`, `currentDoc` and `isLoading` unchanged; each setter
changes only its own field and leaves every other field unchanged. -/
theorem c8_store_frame (s : AppState) (repos : List Repository)
    (repo : Option Repository) (doc : Option Documentation)
    (loading : Bool) (e : Option String) :
    ((clearError s).error = none ∧ (clearError s).repositories = s.repositories ∧
     (clearError s).currentRepo = s.currentRepo ∧ (clearError s).currentDoc = s.currentDoc ∧
     (clearError s).isLoading = s.isLoading)
    ∧ ((setRepositories repos s).repositories = repos ∧
       (setRepositories repos s).currentRepo = s.currentRepo ∧
       (setRepositories repos s).currentDoc = s.currentDoc ∧
       (setRepositories repos s).isLoading = s.isLoading ∧
       (setRepositories repos s).error = s.error)
    ∧ ((setCurrentRepo repo s).currentRepo = repo ∧
       (setCurrentRepo repo s).repositories = s.repositories ∧
       (setCurrentRepo repo s).currentDoc = s.currentDoc ∧
       (setCurrentRepo repo s).isLoading = s.isLoading ∧
       (setCurrentRepo repo s).error = s.error)
    ∧ ((setCurrentDoc doc s).currentDoc = doc ∧
       (setCurrentDoc doc s).repositories = s.repositories ∧
       (setCurrentDoc doc s).currentRepo = s.currentRepo ∧
       (setCurrentDoc doc s).isLoading = s.isLoading ∧
       (setCurrentDoc doc s).error = s.error)
    ∧ ((setLoading loading s).isLoading = loading ∧
       (setLoading loading s).repositories = s.repositories ∧
       (setLoading loading s).currentRepo = s.currentRepo ∧
       (setLoading loading s).currentDoc = s.currentDoc ∧
       (setLoading loading s).error = s.error)
    ∧ ((setError e s).error = e ∧
       (setError e s).repositories = s.repositories ∧
       (setError e s).currentRepo = s.currentRepo ∧
       (setError e s).currentDoc = s.currentDoc ∧
       (setError e s).isLoading = s.isLoading) :=
  ⟨⟨rfl, rfl, rfl, rfl, rfl⟩, ⟨rfl, rfl, rfl, rfl, rfl⟩, ⟨rfl, rfl, rfl, rfl, rfl⟩,
   ⟨rfl, rfl, rfl, rfl, rfl⟩, ⟨rfl, rfl, rfl, rfl, rfl⟩, ⟨rfl, rfl, rfl, rfl, rfl⟩⟩

/-- The semantics of JavaScript `String.prototype.trim`: remove
leading and trailing whitespace.  Defined on the character list so it
evaluates inside the kernel. -/
def jsTrim (s : String) : String :=
  ⟨((s.data.dropWhile Char.isWhitespace).reverse.dropWhile Char.isWhitespace).reverse⟩

/-- Embedded from `services/api.ts`: the `RepositoryCreate` request
body of `POST /api/repos/analyze`. -/
structure RepositoryCreate where
  url : String
  auth_token : Option String
  branch : String
  monitoring_enabled : Bool
deriving DecidableEq

/-- The observable outcome of one submission of the upload form:
the value passed to the store's `setError` (if called), the analyze
request body (if a request was issued), and whether the submitting
state was entered (`setIsSubmitting(true)` ran). -/
structure SubmitOutcome where
  errorSet : Option (Option String)
  request : Option RepositoryCreate
  submittingSet : Bool
deriving DecidableEq

/-- Embedded from `components/RepoUpload.tsx` (`handleSubmit`): when
`!url.trim()` the store error is set to the fixed message and the
handler returns at once; otherwise `setError(null)` and
`setIsSubmitting(true)` run and the request is sent with `url.trim()`,
`auth_token: authToken.trim() || undefined`,
`branch: branch.trim() || 'main'` and `monitoring_enabled: true`. -/
def handleSubmit (url authToken branch : String) : SubmitOutcome :=
  if jsTrim url = "" then
    ⟨some (some "Please enter a repository URL"), none, false⟩
  else
    ⟨some none,
     some ⟨jsTrim url,
           if jsTrim authToken = "" then none else some (jsTrim authToken),
           if jsTrim branch = "" then "main" else jsTrim branch,
           true⟩,
     true⟩

/-- C9: with an empty or whitespace-only URL, submitting the upload
form sets the store error to the fixed message and returns: no
analyze request is issued and the submitting state is not entered. -/
theorem c9_empty_url_rejected (url authToken branch : String) (h : jsTrim url = "") :
    handleSubmit url authToken branch
      = ⟨some (some "Please enter a repository URL"), none, false⟩ := by
  unfold handleSubmit
  rw [if_pos h]

theorem c9_empty_url_rejected_witness :
    handleSubmit "   " "tok" "dev"
      = ⟨some (some "Please enter a repository URL"), none, false⟩ :=
  c9_empty_url_rejected "   " "tok" "dev" (by decide)

/-- Embedded from the SQL schema: name, nullability and default value
of each column of the `repositories` table. -/
structure Column where
  name : String
  notNull : Bool
  defaultVal : Option String
deriving DecidableEq

/-- Embedded from the SQL schema: the columns of `repositories`. -/
def repositoriesColumns : List Column :=
  [⟨"id", true, some "uuid_generate_v4()"⟩,
   ⟨"url", true, none⟩,
   ⟨"name", false, none⟩,
   ⟨"description", false, none⟩,
   ⟨"status", true, none⟩,
   ⟨"last_commit_hash", false, none⟩,
   ⟨"branch", true, some "main"⟩,
   ⟨"monitoring_enabled", true, some "true"⟩,
   ⟨"webhook_id", false, none⟩,
   ⟨"error_message", false, none⟩,
   ⟨"last_analyzed_at", false, none⟩,
   ⟨"created_at", true, some "NOW()"⟩,
   ⟨"updated_at", false, none⟩]

/-- C10: with a non-empty URL, a blank or whitespace-only branch field
yields a request whose branch is `main`, and a blank or
whitespace-only token field yields `auth_token = none`; independently,
the schema defaults `repositories.branch` to `main`. -/
theorem c10_branch_token_defaults (url authToken branch : String)
    (hu : jsTrim url ≠ "") :
    (jsTrim branch = "" →
       (handleSubmit url authToken branch).request
         = some ⟨jsTrim url,
                 if jsTrim authToken = "" then none else some (jsTrim authToken),
                 "main", true⟩)
    ∧ (jsTrim authToken = "" →
       (handleSubmit url authToken branch).request
         = some ⟨jsTrim url, none,
                 if jsTrim branch = "" then "main" else jsTrim branch, true⟩)
    ∧ (repositoriesColumns.find? (fun c => decide (c.name = "branch"))).map Column.defaultVal
        = some (some "main") := by
  refine ⟨?_, ?_, by decide⟩
  · intro hb
    unfold handleSubmit
    rw [if_neg hu]
    simp [hb]
  · intro ha
    unfold handleSubmit
    rw [if_neg hu]
    simp [ha]

theorem c10_branch_token_defaults_witness :
    (jsTrim " " = "" →
       (handleSubmit "https://example.com/repo" "" " ").request
         = some ⟨jsTrim "https://example.com/repo",
                 if jsTrim "" = "" then none else some (jsTrim ""),
                 "main", true⟩)
    ∧ (jsTrim "" = "" →
       (handleSubmit "https://example.com/repo" "" " ").request
         = some ⟨jsTrim "https://example.com/repo", none,
                 if jsTrim " " = "" then "main" else jsTrim " ", true⟩)
    ∧ (repositoriesColumns.find? (fun c => decide (c.name = "branch"))).map Column.defaultVal
        = some (some "main") :=
  c10_branch_token_defaults "https://example.com/repo" "" " " (by decide)

end RepoDocAgent
